import Mathlib

/-!
Verification of the nqbtc qBittorrent WebUI client core: a shallow embedding of
the session and version aware request layer (utils, authenticator, dispatcher,
version branch policy) and of the log persister, with theorems checking the
specification claims against the embedded code.
-/

namespace Nqbtc

/-- Client visible error taxonomy of the core: cookie extraction failures and
the dispatcher auth failed branch are authentication errors; transport failures
carry the message of the underlying fetch error. -/
inductive Err where
  | cookieNotFound
  | invalidCookie
  | authFailed
  | transport (msg : String)
deriving DecidableEq, Repr

instance exceptDecEq {ε α : Type} [DecidableEq ε] [DecidableEq α] : DecidableEq (Except ε α)
  | Except.error e, Except.error f =>
    if h : e = f then isTrue (by rw [h]) else isFalse (by intro hc; cases hc; exact h rfl)
  | Except.error _, Except.ok _ => isFalse (by intro hc; cases hc)
  | Except.ok _, Except.error _ => isFalse (by intro hc; cases hc)
  | Except.ok x, Except.ok y =>
    if h : x = y then isTrue (by rw [h]) else isFalse (by intro hc; cases hc; exact h rfl)

/-- Tokenizer for the numeric aware string comparison: maximal digit runs become
numbers, every other character stands alone. Models the numeric collation used
by localeCompare with the numeric option, for the ASCII version strings the
client compares. The accumulator holds a digit run in progress. -/
def numTokens : List Char → Option Nat → List (Nat ⊕ Char)
  | [], none => []
  | [], some n => [Sum.inl n]
  | c :: cs, acc =>
    if c.isDigit then numTokens cs (some ((acc.getD 0) * 10 + (c.toNat - 48)))
    else
      match acc with
      | some n => Sum.inl n :: Sum.inr c :: numTokens cs none
      | none => Sum.inr c :: numTokens cs none

/-- Comparison of single tokens: numbers compare numerically and sort before
other characters; other characters compare by code point. -/
def tokCmp : Nat ⊕ Char → Nat ⊕ Char → Ordering
  | Sum.inl m, Sum.inl n => compare m n
  | Sum.inl _, Sum.inr _ => Ordering.lt
  | Sum.inr _, Sum.inl _ => Ordering.gt
  | Sum.inr c, Sum.inr d => compare c.toNat d.toNat

/-- Lexicographic comparison of token lists. -/
def numCompare : List (Nat ⊕ Char) → List (Nat ⊕ Char) → Ordering
  | [], [] => Ordering.eq
  | [], _ :: _ => Ordering.lt
  | _ :: _, [] => Ordering.gt
  | a :: as, b :: bs =>
    match tokCmp a b with
    | Ordering.eq => numCompare as bs
    | o => o

/-- Model of isGreater from utils: localeCompare with the numeric option
returns one exactly when the first string strictly follows the second in the
numeric aware ordering. -/
def isGreater (a b : String) : Bool :=
  numCompare (numTokens a.data none) (numTokens b.data none) == Ordering.gt

/-- Prefix test on character lists. -/
def isPrefixList : List Char → List Char → Bool
  | [], _ => true
  | _ :: _, [] => false
  | p :: ps, c :: cs => p == c && isPrefixList ps cs

/-- Substring containment on character lists. -/
def containsSubList (pat : List Char) : List Char → Bool
  | [] => isPrefixList pat []
  | c :: cs => isPrefixList pat (c :: cs) || containsSubList pat cs

/-- Substring containment, modelling the includes check on cookie directives. -/
def containsSub (s pat : String) : Bool :=
  containsSubList pat.data s.data

/-- Split on a single separator character, accumulating the current piece in
reverse; models the javascript split on one character separators. -/
def splitOnCharAux (sep : Char) : List Char → List Char → List (List Char)
  | [], acc => [acc.reverse]
  | c :: cs, acc =>
    if c == sep then acc.reverse :: splitOnCharAux sep cs []
    else splitOnCharAux sep cs (c :: acc)

/-- Split a string on a single separator character. -/
def splitOnChar (sep : Char) (s : String) : List String :=
  (splitOnCharAux sep s.data []).map String.mk

/-- Removal of leading and trailing whitespace. -/
def trimStr (s : String) : String :=
  String.mk
    (((s.data.dropWhile (fun c => c.isWhitespace)).reverse.dropWhile
        (fun c => c.isWhitespace)).reverse)

/-- Removal of every trailing slash, modelling the first replace in joinURL. -/
def stripTrailingSlashes (s : String) : String :=
  String.mk ((s.data.reverse.dropWhile (fun c => c == '/')).reverse)

/-- Removal of every leading and trailing slash, modelling the second replace
in joinURL. -/
def stripBoundarySlashes (s : String) : String :=
  String.mk (((s.data.dropWhile (fun c => c == '/')).reverse.dropWhile (fun c => c == '/')).reverse)

/-- Folding step of joinURL over the segments after the first. -/
def joinURLStep (url part : String) : String :=
  let cleanPart := stripBoundarySlashes part
  if cleanPart.length > 0 then url ++ "/" ++ cleanPart else url

/-- Join of the already filtered nonempty segments. -/
def joinURLNormalized : List String → String
  | [] => ""
  | first :: rest => rest.foldl joinURLStep (stripTrailingSlashes first)

/-- Model of joinURL from utils: `none` stands for an undefined argument;
undefined and empty segments are dropped, the first kept segment loses its
trailing slashes, every later kept segment loses its boundary slashes and is
appended behind a single slash. -/
def joinURL (parts : List (Option String)) : String :=
  joinURLNormalized ((parts.filterMap id).filter (fun p => p != ""))

/-- Runtime authentication state: session id and expiration timestamp in
milliseconds. -/
structure Auth where
  sid : String
  expires : Int
deriving DecidableEq, Repr

/-- Cached server version information used for v4 and v5 compatibility. -/
structure VersionInfo where
  application : String
  isVersion5OrHigher : Bool
deriving DecidableEq, Repr

/-- Mutable client state: optional auth and optional version cache. -/
structure ClientState where
  auth : Option Auth
  version : Option VersionInfo
deriving DecidableEq, Repr

/-- Reading of the optional chain on the version flag: absent version
information counts as not version five. -/
def isV5 (st : ClientState) : Bool :=
  match st.version with
  | some v => v.isVersion5OrHigher
  | none => false

/-- Truthiness of the cached application string, the guard checkVersion uses to
skip detection. -/
def versionCached (st : ClientState) : Bool :=
  match st.version with
  | some v => v.application != ""
  | none => false

/-- Cleanup applied to the fetched version string in checkVersion: drop one
leading letter v, then keep only what precedes the first hyphen. -/
def cleanVersion (s : String) : String :=
  let s1 :=
    match s.data with
    | 'v' :: rest => String.mk rest
    | _ => s
  match splitOnChar '-' s1 with
  | [] => s1
  | h :: _ => h

/-- Model of checkVersion: when the cached application string is truthy the
cached record is kept and no fetch happens; otherwise the version endpoint is
queried (its outcome is the `fetched` argument, a transport error message on
failure) and the record is stored with the v5 flag computed from the cleaned
string. The boolean in the result tells whether a fetch was performed. -/
def checkVersion (st : ClientState) (fetched : Except String String) :
    Except Err (ClientState × Bool) :=
  if versionCached st then Except.ok (st, false)
  else
    match fetched with
    | Except.error msg => Except.error (Err.transport msg)
    | Except.ok newVersion =>
      let clean := cleanVersion newVersion
      Except.ok
        ({ st with
            version := some ⟨newVersion, clean == "5.0.0" || isGreater clean "5.0.0"⟩ },
          true)

/-- Model of the external cookie codec: split the directive on semicolons,
split each piece on the first equals sign, trim spaces around key and value,
drop pieces without an equals sign. The core only relies on this parsing
contract of the cookie library. -/
def cookieParse (s : String) : List (String × String) :=
  (splitOnChar ';' s).filterMap fun kv =>
    match splitOnChar '=' kv with
    | [] => none
    | [_] => none
    | k :: rest => some (trimStr k, trimStr (String.intercalate "=" rest))

/-- Lookup of a cookie attribute by exact key. -/
def cookieLookup (cookie : List (String × String)) (key : String) : Option String :=
  (cookie.find? (fun p => p.1 == key)).map (fun p => p.2)

/-- Expiry computation of login from the parsed cookie directive: a present
Expires attribute (either spelling) wins, else Max-Age seconds are added to
now, else the default of one hour; `parseDate` and `parseNum` abstract the
javascript Date and Number coercions. -/
def loginExpires (cookie : List (String × String)) (now : Int)
    (parseDate parseNum : String → Int) : Int :=
  match (cookieLookup cookie "Expires").orElse (fun _ => cookieLookup cookie "expires") with
  | some e => parseDate e
  | none =>
    match (cookieLookup cookie "Max-Age").orElse (fun _ => cookieLookup cookie "max-age") with
    | some m => now + parseNum m * 1000
    | none => now + 3600000

/-- Model of QBittorrent.login. The transport call to the auth login endpoint is
abstracted by `fetchOutcome`: a transport error message on failure, the list of
emitted set cookie directives on success. The directive containing the SID key
is preferred, the first directive is the fallback, no directive at all fails
the handshake, and a parsed directive without a SID key fails it as well; on
success the auth state is cached and version detection runs, fed by
`versionFetch`. Returns the value login resolves with and the new state. -/
def login (st : ClientState) (now : Int) (parseDate : String → Int)
    (parseNum : String → Int) (fetchOutcome : Except String (List String))
    (versionFetch : Except String String) : Except Err (Bool × ClientState) :=
  match fetchOutcome with
  | Except.error msg => Except.error (Err.transport msg)
  | Except.ok setCookies =>
    match (setCookies.find? (fun v => containsSub v "SID=")).orElse (fun _ => setCookies.head?) with
    | none => Except.error Err.cookieNotFound
    | some setCookie =>
      match cookieLookup (cookieParse setCookie) "SID" with
      | none => Except.error Err.invalidCookie
      | some sid =>
        match checkVersion
            { st with
                auth := some ⟨sid, loginExpires (cookieParse setCookie) now parseDate parseNum⟩ }
            versionFetch with
        | Except.error e => Except.error e
        | Except.ok (st2, _) => Except.ok (true, st2)

/-- Model of QBittorrent.logout: the remote post runs only when a truthy sid is
cached; the finally block clears both the auth and the version cache in every
case; with no catch block a transport failure still propagates to the caller
after the state is cleared. -/
def logout (st : ClientState) (transportOutcome : Except String Unit) :
    Except Err Bool × ClientState :=
  let cleared : ClientState := { auth := none, version := none }
  match st.auth with
  | none => (Except.ok true, cleared)
  | some a =>
    if a.sid == "" then (Except.ok true, cleared)
    else
      match transportOutcome with
      | Except.ok _ => (Except.ok true, cleared)
      | Except.error msg => (Except.error (Err.transport msg), cleared)

/-- Outgoing network calls the dispatcher can make, in order. -/
inductive Call where
  | login
  | transport (path : String)
deriving DecidableEq, Repr

/-- Session guard condition of QBittorrent.request: no cached auth, a falsy
(empty) sid, or an expiry timestamp strictly below the current time. The code
also tests the expires field for truthiness, which never fails for a Date
object and is therefore not represented. -/
def needsLogin (st : ClientState) (now : Int) : Bool :=
  match st.auth with
  | none => true
  | some a => a.sid == "" || decide (a.expires < now)

/-- Model of the QBittorrent.request session guard and call sequencing.
`loginOutcome` abstracts the login call and `transportOutcome` the fetch to the
target path (a transport error message on failure, the body text on success).
Returns the request result together with the ordered list of outgoing calls. -/
def request (path : String) (st : ClientState) (now : Int)
    (loginOutcome : Except Err (Bool × ClientState))
    (transportOutcome : Except String String) : Except Err String × List Call :=
  if needsLogin st now then
    match loginOutcome with
    | Except.error e => (Except.error e, [Call.login])
    | Except.ok (authed, _) =>
      if !authed then (Except.error Err.authFailed, [Call.login])
      else
        match transportOutcome with
        | Except.error msg => (Except.error (Err.transport msg), [Call.login, Call.transport path])
        | Except.ok body => (Except.ok body, [Call.login, Call.transport path])
  else
    match transportOutcome with
    | Except.error msg => (Except.error (Err.transport msg), [Call.transport path])
    | Except.ok body => (Except.ok body, [Call.transport path])

/-- Filter remapping in QBittorrent.getTorrentList: on v5 the legacy tokens
paused and resumed become stopped and running; otherwise the v5 tokens stopped
and running become paused and resumed; every other token passes unchanged. -/
def remapFilter (st : ClientState) (f : String) : String :=
  if isV5 st then
    if f == "paused" then "stopped"
    else if f == "resumed" then "running"
    else f
  else if f == "stopped" then "paused"
  else if f == "running" then "resumed"
  else f

/-- Assembly of the filter query parameter in getTorrentList: the parameter is
set only when the option holds a truthy (nonempty) string, and then carries the
remapped token. -/
def getTorrentListFilterParam (st : ClientState) (f : Option String) : Option String :=
  match f with
  | none => none
  | some f => if f == "" then none else some (remapFilter st f)

/-- Endpoint chosen by QBittorrent.stopTorrents. -/
def stopTorrentsEndpoint (st : ClientState) : String :=
  if isV5 st then "/torrents/stop" else "/torrents/pause"

/-- Endpoint chosen by QBittorrent.pauseTorrents, which delegates to
stopTorrents. -/
def pauseTorrentsEndpoint (st : ClientState) : String :=
  stopTorrentsEndpoint st

/-- Endpoint chosen by QBittorrent.startTorrents. -/
def startTorrentsEndpoint (st : ClientState) : String :=
  if isV5 st then "/torrents/start" else "/torrents/resume"

/-- Endpoint chosen by QBittorrent.resumeTorrents, which delegates to
startTorrents. -/
def resumeTorrentsEndpoint (st : ClientState) : String :=
  startTorrentsEndpoint st

/-- Option fields of the add torrent form relevant to the version branch
policy; the remaining form fields are copied into the form untouched. -/
structure AddOptions where
  paused : Option Bool
  stopped : Option Bool
  savepath : Option String
  useAutoTMM : Option Bool
deriving DecidableEq, Repr

/-- Option preprocessing in QBittorrent.addNewTorrent: on v5, a supplied paused
value is copied to stopped unless stopped was supplied explicitly, and the
paused key is deleted; afterwards a true useAutoTMM clears the savepath. -/
def addNewTorrentOptions (st : ClientState) (o : AddOptions) : AddOptions :=
  let o1 :=
    if isV5 st && o.paused.isSome then
      { o with stopped := if o.stopped.isNone then o.paused else o.stopped, paused := none }
    else o
  if o1.useAutoTMM == some true then { o1 with savepath := some "" } else o1

/-- Option preprocessing in QBittorrent.addNewMagnet, duplicated verbatim from
addNewTorrent in the source. -/
def addNewMagnetOptions (st : ClientState) (o : AddOptions) : AddOptions :=
  let o1 :=
    if isV5 st && o.paused.isSome then
      { o with stopped := if o.stopped.isNone then o.paused else o.stopped, paused := none }
    else o
  if o1.useAutoTMM == some true then { o1 with savepath := some "" } else o1

/-- Main log entry: server assigned id, message, unix timestamp and severity
type (one of 1, 2, 4, 8). -/
structure LogEntry where
  id : Int
  message : String
  timestamp : Int
  type : Nat
deriving DecidableEq, Repr

/-- Peer log entry. -/
structure PeerLogEntry where
  id : Int
  ip : String
  timestamp : Int
  blocked : Bool
  reason : String
deriving DecidableEq, Repr

/-- Ascending order on main log entries by id, the order the javascript sort
comparator induces. -/
def logLe (a b : LogEntry) : Prop :=
  a.id ≤ b.id

/-- Ascending order on peer log entries by id. -/
def peerLe (a b : PeerLogEntry) : Prop :=
  a.id ≤ b.id

instance : DecidableRel logLe :=
  fun a b => Int.decLe a.id b.id

instance : DecidableRel peerLe :=
  fun a b => Int.decLe a.id b.id

instance : IsTotal LogEntry logLe :=
  ⟨fun a b => Int.le_total a.id b.id⟩

instance : IsTrans LogEntry logLe :=
  ⟨fun _ _ _ h1 h2 => le_trans h1 h2⟩

instance : IsTotal PeerLogEntry peerLe :=
  ⟨fun a b => Int.le_total a.id b.id⟩

instance : IsTrans PeerLogEntry peerLe :=
  ⟨fun _ _ _ h1 h2 => le_trans h1 h2⟩

/-- Stable sort of main log entries ascending by id, modelling the javascript
sort with the difference comparator. -/
def sortById (l : List LogEntry) : List LogEntry :=
  List.insertionSort logLe l

/-- Stable sort of peer log entries ascending by id. -/
def sortPeerById (l : List PeerLogEntry) : List PeerLogEntry :=
  List.insertionSort peerLe l

/-- Record of one remote page request made by a sync loop: the cache at call
time, the lastKnownId argument sent, and the page that came back. -/
structure SyncCall where
  cache : List LogEntry
  arg : Option Int
  fetched : List LogEntry
deriving DecidableEq, Repr

/-- Record of one remote page request of the peer sync loop. -/
structure PeerSyncCall where
  cache : List PeerLogEntry
  arg : Option Int
  fetched : List PeerLogEntry
deriving DecidableEq, Repr

/-- Loop body of syncMainLogs. The fuel counts the remaining iterations of the
while loop bounded by ten pages; `fetch` abstracts the remote getLog call,
indexed by the number of requests already made and by the lastKnownId argument,
which the code takes from the last element of the cache. An empty page breaks
the loop; a nonempty page is merged into the cache, which is re sorted
ascending by id. The trace records every request made. -/
def syncMainLoop (fetch : Nat → Option Int → List LogEntry) :
    Nat → List LogEntry → List SyncCall → List LogEntry × List SyncCall
  | 0, cache, trace => (cache, trace)
  | fuel + 1, cache, trace =>
    let lastId := (cache.getLast?).map (fun e => e.id)
    let fetched := fetch trace.length lastId
    if fetched.length ≤ 0 then (cache, trace ++ [⟨cache, lastId, fetched⟩])
    else syncMainLoop fetch fuel (sortById (cache ++ fetched)) (trace ++ [⟨cache, lastId, fetched⟩])

/-- Model of QBittorrentLogPersister.syncMainLogs on a given cache: runs the
page loop with the hard cap of ten pages and an empty trace. -/
def syncMainLogs (fetch : Nat → Option Int → List LogEntry) (cache : List LogEntry) :
    List LogEntry × List SyncCall :=
  syncMainLoop fetch 10 cache []

/-- Loop body of syncPeerLogs, structurally identical to the main loop. -/
def syncPeerLoop (fetch : Nat → Option Int → List PeerLogEntry) :
    Nat → List PeerLogEntry → List PeerSyncCall → List PeerLogEntry × List PeerSyncCall
  | 0, cache, trace => (cache, trace)
  | fuel + 1, cache, trace =>
    let lastId := (cache.getLast?).map (fun e => e.id)
    let fetched := fetch trace.length lastId
    if fetched.length ≤ 0 then (cache, trace ++ [⟨cache, lastId, fetched⟩])
    else syncPeerLoop fetch fuel (sortPeerById (cache ++ fetched)) (trace ++ [⟨cache, lastId, fetched⟩])

/-- Model of QBittorrentLogPersister.syncPeerLogs on a given cache. -/
def syncPeerLogs (fetch : Nat → Option Int → List PeerLogEntry) (cache : List PeerLogEntry) :
    List PeerLogEntry × List PeerSyncCall :=
  syncPeerLoop fetch 10 cache []

/-- Query options of getMainLogs; every severity flag defaults to true and the
cursor is optional. -/
structure GetLogOptions where
  normal : Option Bool
  info : Option Bool
  warning : Option Bool
  critical : Option Bool
  lastKnownId : Option Int
deriving DecidableEq, Repr

/-- Per entry predicate of the getMainLogs filter, mirroring the chain of early
returns in the source: the cursor excludes ids at or below lastKnownId, then
each of the four severity types is excluded when its flag resolves to false. -/
def logEntryAllowed (q : GetLogOptions) (e : LogEntry) : Bool :=
  let allowNormal := q.normal.getD true
  let allowInfo := q.info.getD true
  let allowWarning := q.warning.getD true
  let allowCritical := q.critical.getD true
  if (match q.lastKnownId with
      | some k => decide (e.id ≤ k)
      | none => false) then false
  else if e.type == 1 && !allowNormal then false
  else if e.type == 2 && !allowInfo then false
  else if e.type == 4 && !allowWarning then false
  else if e.type == 8 && !allowCritical then false
  else true

/-- Model of QBittorrentLogPersister.getMainLogs on a given cache: trigger the
main sync, then return the filtered rows as a pure view; the second component
is the cache the persister keeps after the call, untouched by the filter. -/
def getMainLogs (q : GetLogOptions) (fetch : Nat → Option Int → List LogEntry)
    (cache : List LogEntry) : List LogEntry × List LogEntry :=
  let cache2 := (syncMainLogs fetch cache).1
  (cache2.filter (logEntryAllowed q), cache2)

/-- Cursor and severity predicate worded as the specification states it: the
cursor keeps only ids strictly greater than lastKnownId, and an entry of one
of the four severity types passes exactly when its inclusion flag, defaulting
to true, is set. Stated separately from the embedded logEntryAllowed so the two
can be compared. -/
def specLogAllowed (q : GetLogOptions) (e : LogEntry) : Bool :=
  (match q.lastKnownId with
   | some k => decide (k < e.id)
   | none => true) &&
  (if e.type = 1 then q.normal.getD true
   else if e.type = 2 then q.info.getD true
   else if e.type = 4 then q.warning.getD true
   else if e.type = 8 then q.critical.getD true
   else true)

/-- Example log source used in concrete instantiations: one page of four
entries covering the four severity types, then empty pages. -/
def exampleLogFetch : Nat → Option Int → List LogEntry :=
  fun _ last =>
    match last with
    | none => [⟨1, "n", 10, 1⟩, ⟨2, "i", 11, 2⟩, ⟨3, "w", 12, 4⟩, ⟨4, "c", 13, 8⟩]
    | some _ => []

/-- Example peer log source used in concrete instantiations. -/
def examplePeerFetch : Nat → Option Int → List PeerLogEntry :=
  fun _ last =>
    match last with
    | none => [⟨1, "10.0.0.1", 10, true, "banned"⟩]
    | some _ => []

/-- A version five client state used in concrete instantiations. -/
def exampleV5State : ClientState :=
  ⟨none, some ⟨"v5.0.5", true⟩⟩

/-- C2: for every getTorrentList call with a filter value, on a cached v5
version flag the token paused is sent as stopped and resumed as running, with
every other token unchanged; when the flag is false or version information is
absent, stopped is sent as paused and running as resumed, with every other
token unchanged. -/
theorem c2_getTorrentList_filter_remap (st : ClientState) (f : String) (hf : f ≠ "") :
    (isV5 st = true →
      getTorrentListFilterParam st (some f) =
        some (if f = "paused" then "stopped" else if f = "resumed" then "running" else f)) ∧
    (isV5 st = false →
      getTorrentListFilterParam st (some f) =
        some (if f = "stopped" then "paused" else if f = "running" then "resumed" else f)) ∧
    (st.version = none → isV5 st = false) := by
  refine ⟨fun h5 => ?_, fun h5 => ?_, fun hv => ?_⟩
  · simp only [getTorrentListFilterParam, remapFilter, h5, if_true, beq_iff_eq]
    simp [hf]
  · simp only [getTorrentListFilterParam, remapFilter, h5, beq_iff_eq]
    simp [hf]
  · simp [isV5, hv]

/-- Witness for C2 at a concrete version five state and the filter paused. -/
theorem c2_witness :
    getTorrentListFilterParam exampleV5State (some "paused") = some "stopped" := by
  have h := (c2_getTorrentList_filter_remap exampleV5State "paused" (by decide)).1 (by decide)
  simpa using h

/-- C3: with no version information cached, the stop and pause methods resolve
to the legacy pause endpoint and the start and resume methods to the legacy
resume endpoint; the v5 endpoint names are chosen exactly when the cached flag
is positively true; the pause and resume aliases share the endpoints of stop
and start. -/
theorem c3_endpoint_version_default (st : ClientState) :
    (st.version = none →
      stopTorrentsEndpoint st = "/torrents/pause" ∧
      startTorrentsEndpoint st = "/torrents/resume") ∧
    (stopTorrentsEndpoint st = "/torrents/stop" ↔ isV5 st = true) ∧
    (startTorrentsEndpoint st = "/torrents/start" ↔ isV5 st = true) ∧
    pauseTorrentsEndpoint st = stopTorrentsEndpoint st ∧
    resumeTorrentsEndpoint st = startTorrentsEndpoint st := by
  refine ⟨fun hv => ?_, ?_, ?_, rfl, rfl⟩
  · simp [stopTorrentsEndpoint, startTorrentsEndpoint, isV5, hv]
  · cases h5 : isV5 st <;> simp [stopTorrentsEndpoint, h5]
  · cases h5 : isV5 st <;> simp [startTorrentsEndpoint, h5]

/-- Witness for C3 at the empty client state. -/
theorem c3_witness :
    stopTorrentsEndpoint ⟨none, none⟩ = "/torrents/pause" ∧
    startTorrentsEndpoint ⟨none, none⟩ = "/torrents/resume" :=
  (c3_endpoint_version_default ⟨none, none⟩).1 rfl

theorem tokCmp_self (t : Nat ⊕ Char) : tokCmp t t = Ordering.eq := by
  cases t with
  | inl n => simpa [tokCmp] using Nat.compare_eq_eq.2 rfl
  | inr c => simpa [tokCmp] using Nat.compare_eq_eq.2 rfl

theorem numCompare_self (l : List (Nat ⊕ Char)) : numCompare l l = Ordering.eq := by
  induction l with
  | nil => rfl
  | cons a as ih => simp [numCompare, tokCmp_self, ih]

theorem isGreater_irrefl (s : String) : isGreater s s = false := by
  simp only [isGreater, numCompare_self]
  rfl

/-- C1 (amended): the session guard of request triggers exactly when no auth is
cached, the cached sid is empty, or the cached expiry lies strictly before the
current time; when it triggers, exactly one login call is made and it precedes
any transport call; and when that login fails the request fails with the login
error and no transport call to the target path is made. -/
theorem c1_request_session_guard (path : String) (st : ClientState) (now : Int)
    (lo : Except Err (Bool × ClientState)) (tr : Except String String) :
    (needsLogin st now = true ↔
      st.auth = none ∨ ∃ a, st.auth = some a ∧ (a.sid = "" ∨ a.expires < now)) ∧
    (needsLogin st now = true →
      (request path st now lo tr).2.count Call.login = 1 ∧
      (request path st now lo tr).2.head? = some Call.login) ∧
    (∀ e, needsLogin st now = true → lo = Except.error e →
      (request path st now lo tr).1 = Except.error e ∧
      Call.transport path ∉ (request path st now lo tr).2) := by
  refine ⟨?_, fun h => ?_, fun e h hlo => ?_⟩
  · cases ha : st.auth with
    | none => simp [needsLogin, ha]
    | some a => simp [needsLogin, ha]
  · cases lo with
    | error e => simp [request, h]
    | ok v =>
      obtain ⟨authed, st2⟩ := v
      cases authed with
      | false => simp [request, h]
      | true => cases tr <;> simp [request, h, List.count_cons]
  · subst hlo
    simp [request, h]

/-- Counterexample to C1 as stated: with a cached token whose expiry equals the
current time the claim requires a login before the request, but the code
compares the expiry with a strict inequality and performs no login at all. -/
theorem c1_counterexample :
    (100 : Int) ≤ 100 ∧
    (request "/x" ⟨some ⟨"s", 100⟩, none⟩ 100 (Except.error Err.invalidCookie)
        (Except.ok "ok")).2.count Call.login = 0 := by
  decide

/-- Witness for C1 at the empty client state with a failing login. -/
theorem c1_witness :
    (request "/x" ⟨none, none⟩ 0 (Except.error Err.invalidCookie)
        (Except.ok "b")).2.count Call.login = 1 ∧
    Call.transport "/x" ∉
      (request "/x" ⟨none, none⟩ 0 (Except.error Err.invalidCookie) (Except.ok "b")).2 := by
  have h := c1_request_session_guard "/x" ⟨none, none⟩ 0 (Except.error Err.invalidCookie)
    (Except.ok "b")
  exact ⟨(h.2.1 (by decide)).1, (h.2.2 Err.invalidCookie (by decide) rfl).2⟩

/-- C4 (amended): logout always clears both the cached session token and the
cached version information, for every transport outcome; when no truthy sid is
cached or the remote call succeeds, logout resolves with true; but when the
remote call fails the transport error propagates after the state is cleared. -/
theorem c4_logout_clears_state (st : ClientState) (tr : Except String Unit) :
    ((logout st tr).2.auth = none ∧ (logout st tr).2.version = none) ∧
    (∀ a msg, st.auth = some a → a.sid ≠ "" → tr = Except.error msg →
      (logout st tr).1 = Except.error (Err.transport msg)) ∧
    (tr = Except.ok () → (logout st tr).1 = Except.ok true) ∧
    (st.auth = none → (logout st tr).1 = Except.ok true) := by
  refine ⟨?_, fun a msg ha hsid htr => ?_, fun htr => ?_, fun ha => ?_⟩
  · cases ha : st.auth with
    | none => simp [logout, ha]
    | some a =>
      by_cases hsid : a.sid = ""
      · simp [logout, ha, hsid]
      · cases tr <;> simp [logout, ha, hsid]
  · subst htr
    simp [logout, ha, hsid]
  · subst htr
    cases ha : st.auth with
    | none => simp [logout, ha]
    | some a =>
      by_cases hsid : a.sid = "" <;> simp [logout, ha, hsid]
  · simp [logout, ha]

/-- Counterexample to C4 as stated: with a cached sid and a failing remote call,
logout does not complete successfully; the transport error propagates. -/
theorem c4_counterexample :
    (logout ⟨some ⟨"s", 0⟩, none⟩ (Except.error "boom")).1 ≠ Except.ok true ∧
    (logout ⟨some ⟨"s", 0⟩, none⟩ (Except.error "boom")).1
      = Except.error (Err.transport "boom") := by
  decide

/-- Witness for C4 at a concrete state with a failing remote call. -/
theorem c4_witness :
    (logout ⟨some ⟨"s", 0⟩, none⟩ (Except.error "boom")).2.auth = none ∧
    (logout ⟨some ⟨"s", 0⟩, none⟩ (Except.error "boom")).2.version = none ∧
    (logout ⟨some ⟨"s", 0⟩, none⟩ (Except.error "boom")).1
      = Except.error (Err.transport "boom") := by
  have h := c4_logout_clears_state ⟨some ⟨"s", 0⟩, none⟩ (Except.error "boom")
  exact ⟨h.1.1, h.1.2, h.2.1 ⟨"s", 0⟩ "boom" rfl (by decide) rfl⟩

/-- C6 (amended): checkVersion skips detection exactly when a version record
with a nonempty application string is cached, and otherwise stores the fetched
string with the v5 flag computed as equality with 5.0.0 or strict numeric
following; the numeric comparator puts 5.10.0 strictly after 5.2.0 and never a
string strictly after itself; cleanup drops a leading letter v and a hyphen
suffix. -/
theorem c6_checkVersion_policy (st : ClientState) (s fetched : String) :
    (versionCached st = true → ∀ r, checkVersion st r = Except.ok (st, false)) ∧
    (versionCached st = false →
      checkVersion st (Except.ok fetched) =
        Except.ok ({ st with version := some ⟨fetched,
          cleanVersion fetched == "5.0.0" || isGreater (cleanVersion fetched) "5.0.0"⟩ },
          true)) ∧
    (versionCached st = true ↔ ∃ v, st.version = some v ∧ v.application ≠ "") ∧
    isGreater "5.10.0" "5.2.0" = true ∧
    isGreater s s = false ∧
    cleanVersion "v5.1.2-rc1" = "5.1.2" := by
  refine ⟨fun hc r => ?_, fun hc => ?_, ?_, by decide, isGreater_irrefl s, by decide⟩
  · simp [checkVersion, hc]
  · simp [checkVersion, hc]
  · cases hv : st.version with
    | none => simp [versionCached, hv]
    | some v => simp [versionCached, hv]

/-- Counterexample to C6 as stated: a version record with an empty application
string is reachable (the server answered an empty version body) and is cached,
yet checkVersion runs detection again instead of skipping it. -/
theorem c6_counterexample :
    checkVersion ⟨none, none⟩ (Except.ok "")
      = Except.ok (⟨none, some ⟨"", false⟩⟩, true) ∧
    (⟨none, some ⟨"", false⟩⟩ : ClientState).version.isSome = true ∧
    checkVersion ⟨none, some ⟨"", false⟩⟩ (Except.ok "5.0.0")
      = Except.ok (⟨none, some ⟨"5.0.0", true⟩⟩, true) := by
  decide

/-- Witness for C6 at a concrete cached state: detection is skipped even when
the version endpoint would fail. -/
theorem c6_witness :
    checkVersion ⟨none, some ⟨"v5.0.5", true⟩⟩ (Except.error "down")
      = Except.ok (⟨none, some ⟨"v5.0.5", true⟩⟩, false) :=
  (c6_checkVersion_policy ⟨none, some ⟨"v5.0.5", true⟩⟩ "" "x").1 (by decide)
    (Except.error "down")

/-- C7: on a cached v5 flag, a supplied legacy paused option is copied to
stopped only when stopped was not supplied explicitly, an explicit stopped
wins, and the paused key is removed in either case, in both addNewTorrent and
addNewMagnet; with absent or pre v5 version information both options pass
through unchanged. -/
theorem addNewTorrentOptions_fields (st : ClientState) (o : AddOptions) :
    (addNewTorrentOptions st o).paused
      = (if isV5 st && o.paused.isSome then none else o.paused) ∧
    (addNewTorrentOptions st o).stopped
      = (if isV5 st && o.paused.isSome then
          (if o.stopped.isNone then o.paused else o.stopped) else o.stopped) := by
  constructor <;>
    · simp only [addNewTorrentOptions]
      split <;> split <;>
        simp_all [apply_ite AddOptions.paused, apply_ite AddOptions.stopped]

theorem addNewMagnetOptions_fields (st : ClientState) (o : AddOptions) :
    (addNewMagnetOptions st o).paused
      = (if isV5 st && o.paused.isSome then none else o.paused) ∧
    (addNewMagnetOptions st o).stopped
      = (if isV5 st && o.paused.isSome then
          (if o.stopped.isNone then o.paused else o.stopped) else o.stopped) := by
  constructor <;>
    · simp only [addNewMagnetOptions]
      split <;> split <;>
        simp_all [apply_ite AddOptions.paused, apply_ite AddOptions.stopped]

theorem c7_add_options_paused_stopped (st : ClientState) (o : AddOptions) (p : Bool) :
    (isV5 st = true → o.paused = some p →
      ((o.stopped = none →
        (addNewTorrentOptions st o).stopped = some p ∧
        (addNewMagnetOptions st o).stopped = some p) ∧
       (∀ s, o.stopped = some s →
        (addNewTorrentOptions st o).stopped = some s ∧
        (addNewMagnetOptions st o).stopped = some s) ∧
       (addNewTorrentOptions st o).paused = none ∧
       (addNewMagnetOptions st o).paused = none)) ∧
    (isV5 st = false →
      (addNewTorrentOptions st o).paused = o.paused ∧
      (addNewTorrentOptions st o).stopped = o.stopped ∧
      (addNewMagnetOptions st o).paused = o.paused ∧
      (addNewMagnetOptions st o).stopped = o.stopped) := by
  have hT := addNewTorrentOptions_fields st o
  have hM := addNewMagnetOptions_fields st o
  constructor
  · intro h5 hp
    refine ⟨fun hs => ?_, fun s hs => ?_, ?_⟩
    · simp [hT.2, hM.2, h5, hp, hs]
    · simp [hT.2, hM.2, h5, hp, hs]
    · simp [hT.1, hM.1, h5, hp]
  · intro h5
    simp [hT.1, hT.2, hM.1, hM.2, h5]

/-- Witness for C7 at a concrete version five state with only paused given. -/
theorem c7_witness :
    (addNewTorrentOptions exampleV5State ⟨some true, none, none, none⟩).stopped = some true ∧
    (addNewTorrentOptions exampleV5State ⟨some true, none, none, none⟩).paused = none ∧
    (addNewMagnetOptions exampleV5State ⟨some true, some false, none, none⟩).stopped
      = some false := by
  have h1 := (c7_add_options_paused_stopped exampleV5State ⟨some true, none, none, none⟩
    true).1 (by decide) rfl
  have h2 := (c7_add_options_paused_stopped exampleV5State ⟨some true, some false, none, none⟩
    true).1 (by decide) rfl
  exact ⟨(h1.1 rfl).1, h1.2.2.1, (h2.2.1 false rfl).2⟩

theorem data_append (a b : String) : (a ++ b).data = a.data ++ b.data :=
  rfl

theorem stripTrailingSlashes_append_slash (x : String) :
    stripTrailingSlashes (x ++ "/") = stripTrailingSlashes x := by
  have h : (x ++ "/").data = x.data ++ ['/'] := rfl
  simp [stripTrailingSlashes, h, List.dropWhile_cons]

theorem stripBoundarySlashes_slash_append (y : String) :
    stripBoundarySlashes ("/" ++ y) = stripBoundarySlashes y := by
  have h : ("/" ++ y).data = '/' :: y.data := rfl
  simp [stripBoundarySlashes, h, List.dropWhile_cons]

theorem append_slash_ne_empty (x : String) : x ++ "/" ≠ "" := by
  intro h
  have h2 : (x ++ "/").data = ("" : String).data := congrArg String.data h
  rw [data_append] at h2
  simp at h2

theorem slash_append_ne_empty (y : String) : "/" ++ y ≠ "" := by
  intro h
  have h2 : ("/" ++ y).data = ("" : String).data := congrArg String.data h
  rw [data_append] at h2
  simp at h2

theorem joinURL_pair (a b : String) (ha : a ≠ "") (hb : b ≠ "") :
    joinURL [some a, some b] = joinURLStep (stripTrailingSlashes a) b := by
  simp [joinURL, joinURLNormalized, ha, hb]

theorem joinURLStep_slash_append (u y : String) :
    joinURLStep u ("/" ++ y) = joinURLStep u y := by
  simp [joinURLStep, stripBoundarySlashes_slash_append]

theorem joinURL_single (a : String) (ha : a ≠ "") :
    joinURL [some a] = stripTrailingSlashes a := by
  simp [joinURL, joinURLNormalized, ha]

theorem joinURL_cons_none (l : List (Option String)) :
    joinURL (none :: l) = joinURL l := by
  simp [joinURL]

theorem joinURL_cons_empty (l : List (Option String)) :
    joinURL (some "" :: l) = joinURL l := by
  simp [joinURL]

theorem joinURL_all_empty (l : List (Option String))
    (h : ∀ p ∈ l, p = none ∨ p = some "") : joinURL l = "" := by
  induction l with
  | nil => rfl
  | cons a as ih =>
    rcases h a (by simp) with ha | ha <;> subst ha
    · rw [joinURL_cons_none]
      exact ih (fun p hp => h p (by simp [hp]))
    · rw [joinURL_cons_empty]
      exact ih (fun p hp => h p (by simp [hp]))

theorem joinURL_one_layer (x y : String) (hx : x ≠ "") :
    joinURL [some (x ++ "/"), some ("/" ++ y)] = joinURL [some x, some y] := by
  by_cases hy : y = ""
  · subst hy
    have e1 : ("/" ++ "" : String) = "/" := rfl
    have e2 : stripBoundarySlashes "/" = "" := rfl
    rw [joinURL_pair _ _ (append_slash_ne_empty x) (slash_append_ne_empty "")]
    rw [e1]
    simp [joinURL, joinURLNormalized, hx, joinURLStep, e2, stripTrailingSlashes_append_slash]
  · rw [joinURL_pair _ _ (append_slash_ne_empty x) (slash_append_ne_empty y),
      joinURL_pair x y hx hy, stripTrailingSlashes_append_slash, joinURLStep_slash_append]

/-- C5: joinUrl drops undefined and empty segments, strips one layer of slash
redundancy at the junction between segments, returns the empty string when
every segment is empty or undefined, and satisfies the three concrete examples
of the specification. -/
theorem c5_joinURL_spec (x y : String) (l1 : List (Option String)) (hx : x ≠ "")
    (hall : ∀ p ∈ l1, p = none ∨ p = some "") :
    joinURL [some (x ++ "/"), some ("/" ++ y)] = joinURL [some x, some y] ∧
    (∀ l : List (Option String), joinURL (none :: l) = joinURL l) ∧
    (∀ l : List (Option String), joinURL (some "" :: l) = joinURL l) ∧
    joinURL l1 = "" ∧
    joinURL [some "http://h/", some "/a/", some "/b"] = "http://h/a/b" ∧
    joinURL [] = "" ∧
    joinURL [none, some "x"] = "x" :=
  ⟨joinURL_one_layer x y hx, joinURL_cons_none, joinURL_cons_empty,
    joinURL_all_empty l1 hall, by decide, rfl, by decide⟩

/-- Witness for C5 at concrete segments. -/
theorem c5_witness :
    joinURL [some ("a" ++ "/"), some ("/" ++ "b")] = joinURL [some "a", some "b"] ∧
    joinURL [none, some ""] = "" := by
  have h := c5_joinURL_spec "a" "b" [none, some ""] (by decide) (by decide)
  exact ⟨h.1, h.2.2.2.1⟩

theorem sortById_sorted (l : List LogEntry) : List.Sorted logLe (sortById l) :=
  List.sorted_insertionSort logLe l

theorem sortPeerById_sorted (l : List PeerLogEntry) : List.Sorted peerLe (sortPeerById l) :=
  List.sorted_insertionSort peerLe l

theorem syncMainLoop_length (fetch : Nat → Option Int → List LogEntry) (fuel : Nat) :
    ∀ cache trace, (syncMainLoop fetch fuel cache trace).2.length ≤ trace.length + fuel := by
  induction fuel with
  | zero =>
    intro cache trace
    simp [syncMainLoop]
  | succ n ih =>
    intro cache trace
    simp only [syncMainLoop]
    split
    · simp
    · have h := ih (sortById (cache ++ fetch trace.length ((cache.getLast?).map (fun e => e.id))))
        (trace ++ [⟨cache, (cache.getLast?).map (fun e => e.id),
          fetch trace.length ((cache.getLast?).map (fun e => e.id))⟩])
      simp at h ⊢
      omega

theorem syncMainLoop_stop (fetch : Nat → Option Int → List LogEntry) (fuel : Nat) :
    ∀ cache trace, (∀ r ∈ trace, r.fetched ≠ []) →
      ∀ r ∈ (syncMainLoop fetch fuel cache trace).2.dropLast, r.fetched ≠ [] := by
  induction fuel with
  | zero =>
    intro cache trace h r hr
    exact h r (List.dropLast_subset _ hr)
  | succ n ih =>
    intro cache trace h
    simp only [syncMainLoop]
    split
    · intro r hr
      rw [List.dropLast_concat] at hr
      exact h r hr
    · next hc =>
      apply ih
      intro r hr
      rcases List.mem_append.mp hr with h1 | h1
      · exact h r h1
      · have h2 : r = ⟨cache, (cache.getLast?).map (fun e => e.id),
            fetch trace.length ((cache.getLast?).map (fun e => e.id))⟩ := by
          simpa using h1
        subst h2
        intro hnil
        apply hc
        have hn2 : fetch trace.length ((cache.getLast?).map (fun e => e.id)) = [] := hnil
        simp [hn2]

theorem syncMainLoop_arg (fetch : Nat → Option Int → List LogEntry) (fuel : Nat) :
    ∀ cache trace, (∀ r ∈ trace, r.arg = (r.cache.getLast?).map (fun e => e.id)) →
      ∀ r ∈ (syncMainLoop fetch fuel cache trace).2,
        r.arg = (r.cache.getLast?).map (fun e => e.id) := by
  induction fuel with
  | zero =>
    intro cache trace h
    simpa [syncMainLoop] using h
  | succ n ih =>
    intro cache trace h
    simp only [syncMainLoop]
    split
    · intro r hr
      rcases List.mem_append.mp hr with h1 | h1
      · exact h r h1
      · have h2 : r = ⟨cache, (cache.getLast?).map (fun e => e.id),
            fetch trace.length ((cache.getLast?).map (fun e => e.id))⟩ := by
          simpa using h1
        subst h2
        rfl
    · apply ih
      intro r hr
      rcases List.mem_append.mp hr with h1 | h1
      · exact h r h1
      · have h2 : r = ⟨cache, (cache.getLast?).map (fun e => e.id),
            fetch trace.length ((cache.getLast?).map (fun e => e.id))⟩ := by
          simpa using h1
        subst h2
        rfl

theorem syncMainLoop_sorted (fetch : Nat → Option Int → List LogEntry) (fuel : Nat) :
    ∀ cache trace, List.Sorted logLe cache →
      List.Sorted logLe (syncMainLoop fetch fuel cache trace).1 := by
  induction fuel with
  | zero =>
    intro cache trace h
    simpa [syncMainLoop] using h
  | succ n ih =>
    intro cache trace h
    simp only [syncMainLoop]
    split
    · simpa using h
    · exact ih _ _ (sortById_sorted _)

theorem syncMainLoop_cache_sorted (fetch : Nat → Option Int → List LogEntry) (fuel : Nat) :
    ∀ cache trace, List.Sorted logLe cache → (∀ r ∈ trace, List.Sorted logLe r.cache) →
      ∀ r ∈ (syncMainLoop fetch fuel cache trace).2, List.Sorted logLe r.cache := by
  induction fuel with
  | zero =>
    intro cache trace _ h
    simpa [syncMainLoop] using h
  | succ n ih =>
    intro cache trace hs h
    simp only [syncMainLoop]
    split
    · intro r hr
      rcases List.mem_append.mp hr with h1 | h1
      · exact h r h1
      · have h2 : r = ⟨cache, (cache.getLast?).map (fun e => e.id),
            fetch trace.length ((cache.getLast?).map (fun e => e.id))⟩ := by
          simpa using h1
        subst h2
        exact hs
    · apply ih _ _ (sortById_sorted _)
      intro r hr
      rcases List.mem_append.mp hr with h1 | h1
      · exact h r h1
      · have h2 : r = ⟨cache, (cache.getLast?).map (fun e => e.id),
            fetch trace.length ((cache.getLast?).map (fun e => e.id))⟩ := by
          simpa using h1
        subst h2
        exact hs

theorem sorted_getLast_max (l : List LogEntry) (x : LogEntry)
    (hs : List.Sorted logLe l) (hx : l.getLast? = some x) :
    ∀ e ∈ l, e.id ≤ x.id := by
  induction l with
  | nil => cases hx
  | cons a as ih =>
    cases as with
    | nil =>
      simp at hx
      subst hx
      intro e he
      simp at he
      subst he
      exact le_refl _
    | cons b bs =>
      rw [List.getLast?_cons_cons] at hx
      obtain ⟨ha, hs2⟩ := List.sorted_cons.mp hs
      intro e he
      rcases List.mem_cons.mp he with rfl | he2
      · have hxm : x ∈ b :: bs := List.mem_of_mem_getLast? hx
        exact ha x hxm
      · exact ih hs2 hx e he2

theorem syncPeerLoop_length (fetch : Nat → Option Int → List PeerLogEntry) (fuel : Nat) :
    ∀ cache trace, (syncPeerLoop fetch fuel cache trace).2.length ≤ trace.length + fuel := by
  induction fuel with
  | zero =>
    intro cache trace
    simp [syncPeerLoop]
  | succ n ih =>
    intro cache trace
    simp only [syncPeerLoop]
    split
    · simp
    · have h := ih
        (sortPeerById (cache ++ fetch trace.length ((cache.getLast?).map (fun e => e.id))))
        (trace ++ [⟨cache, (cache.getLast?).map (fun e => e.id),
          fetch trace.length ((cache.getLast?).map (fun e => e.id))⟩])
      simp at h ⊢
      omega

theorem syncPeerLoop_stop (fetch : Nat → Option Int → List PeerLogEntry) (fuel : Nat) :
    ∀ cache trace, (∀ r ∈ trace, r.fetched ≠ []) →
      ∀ r ∈ (syncPeerLoop fetch fuel cache trace).2.dropLast, r.fetched ≠ [] := by
  induction fuel with
  | zero =>
    intro cache trace h r hr
    exact h r (List.dropLast_subset _ hr)
  | succ n ih =>
    intro cache trace h
    simp only [syncPeerLoop]
    split
    · intro r hr
      rw [List.dropLast_concat] at hr
      exact h r hr
    · next hc =>
      apply ih
      intro r hr
      rcases List.mem_append.mp hr with h1 | h1
      · exact h r h1
      · have h2 : r = ⟨cache, (cache.getLast?).map (fun e => e.id),
            fetch trace.length ((cache.getLast?).map (fun e => e.id))⟩ := by
          simpa using h1
        subst h2
        intro hnil
        apply hc
        have hn2 : fetch trace.length ((cache.getLast?).map (fun e => e.id)) = [] := hnil
        simp [hn2]

theorem syncPeerLoop_arg (fetch : Nat → Option Int → List PeerLogEntry) (fuel : Nat) :
    ∀ cache trace, (∀ r ∈ trace, r.arg = (r.cache.getLast?).map (fun e => e.id)) →
      ∀ r ∈ (syncPeerLoop fetch fuel cache trace).2,
        r.arg = (r.cache.getLast?).map (fun e => e.id) := by
  induction fuel with
  | zero =>
    intro cache trace h
    simpa [syncPeerLoop] using h
  | succ n ih =>
    intro cache trace h
    simp only [syncPeerLoop]
    split
    · intro r hr
      rcases List.mem_append.mp hr with h1 | h1
      · exact h r h1
      · have h2 : r = ⟨cache, (cache.getLast?).map (fun e => e.id),
            fetch trace.length ((cache.getLast?).map (fun e => e.id))⟩ := by
          simpa using h1
        subst h2
        rfl
    · apply ih
      intro r hr
      rcases List.mem_append.mp hr with h1 | h1
      · exact h r h1
      · have h2 : r = ⟨cache, (cache.getLast?).map (fun e => e.id),
            fetch trace.length ((cache.getLast?).map (fun e => e.id))⟩ := by
          simpa using h1
        subst h2
        rfl

theorem syncPeerLoop_sorted (fetch : Nat → Option Int → List PeerLogEntry) (fuel : Nat) :
    ∀ cache trace, List.Sorted peerLe cache →
      List.Sorted peerLe (syncPeerLoop fetch fuel cache trace).1 := by
  induction fuel with
  | zero =>
    intro cache trace h
    simpa [syncPeerLoop] using h
  | succ n ih =>
    intro cache trace h
    simp only [syncPeerLoop]
    split
    · simpa using h
    · exact ih _ _ (sortPeerById_sorted _)

/-- C8: each sync makes at most ten page requests regardless of the remote
behavior, stops as soon as a page comes back empty (every request except
possibly the last returned a nonempty page), always sends as lastKnownId the id
of the last cache entry, which bounds every cached id when the cache is sorted,
and keeps the cache sorted ascending by id after merging; this holds for the
main sync and for the peer sync alike. -/
theorem c8_sync_bounded (fetchM : Nat → Option Int → List LogEntry)
    (fetchP : Nat → Option Int → List PeerLogEntry)
    (cacheM : List LogEntry) (cacheP : List PeerLogEntry) :
    (syncMainLogs fetchM cacheM).2.length ≤ 10 ∧
    (∀ r ∈ (syncMainLogs fetchM cacheM).2.dropLast, r.fetched ≠ []) ∧
    (∀ r ∈ (syncMainLogs fetchM cacheM).2,
      r.arg = (r.cache.getLast?).map (fun e => e.id)) ∧
    (List.Sorted logLe cacheM →
      List.Sorted logLe (syncMainLogs fetchM cacheM).1 ∧
      ∀ r ∈ (syncMainLogs fetchM cacheM).2, List.Sorted logLe r.cache) ∧
    (∀ (l : List LogEntry) (x : LogEntry), List.Sorted logLe l → l.getLast? = some x →
      ∀ e ∈ l, e.id ≤ x.id) ∧
    (syncPeerLogs fetchP cacheP).2.length ≤ 10 ∧
    (∀ r ∈ (syncPeerLogs fetchP cacheP).2.dropLast, r.fetched ≠ []) ∧
    (∀ r ∈ (syncPeerLogs fetchP cacheP).2,
      r.arg = (r.cache.getLast?).map (fun e => e.id)) ∧
    (List.Sorted peerLe cacheP → List.Sorted peerLe (syncPeerLogs fetchP cacheP).1) := by
  refine ⟨?_, ?_, ?_, fun hs => ⟨?_, ?_⟩, sorted_getLast_max, ?_, ?_, ?_, fun hs => ?_⟩
  · simpa using syncMainLoop_length fetchM 10 cacheM []
  · exact syncMainLoop_stop fetchM 10 cacheM [] (by simp)
  · exact syncMainLoop_arg fetchM 10 cacheM [] (by simp)
  · exact syncMainLoop_sorted fetchM 10 cacheM [] hs
  · exact syncMainLoop_cache_sorted fetchM 10 cacheM [] hs (by simp)
  · simpa using syncPeerLoop_length fetchP 10 cacheP []
  · exact syncPeerLoop_stop fetchP 10 cacheP [] (by simp)
  · exact syncPeerLoop_arg fetchP 10 cacheP [] (by simp)
  · exact syncPeerLoop_sorted fetchP 10 cacheP [] hs

/-- Witness for C8 at concrete log sources. -/
theorem c8_witness :
    (syncMainLogs exampleLogFetch []).2.length ≤ 10 ∧
    List.Sorted logLe (syncMainLogs exampleLogFetch []).1 ∧
    (syncPeerLogs examplePeerFetch []).2.length ≤ 10 := by
  have h := c8_sync_bounded exampleLogFetch examplePeerFetch [] []
  exact ⟨h.1, (h.2.2.2.1 (by simp)).1, h.2.2.2.2.2.1⟩

theorem severityChain (t : Nat) (n i w c : Bool) :
    (if t == 1 && !n then false
     else if t == 2 && !i then false
     else if t == 4 && !w then false
     else if t == 8 && !c then false
     else true) =
    (if t = 1 then n else if t = 2 then i else if t = 4 then w else if t = 8 then c
     else true) := by
  by_cases h1 : t = 1
  · subst h1
    cases n <;> simp
  · by_cases h2 : t = 2
    · subst h2
      cases i <;> simp
    · by_cases h4 : t = 4
      · subst h4
        cases w <;> simp
      · by_cases h8 : t = 8
        · subst h8
          cases c <;> simp
        · simp [h1, h2, h4, h8]

theorem logEntryAllowed_eq_spec (q : GetLogOptions) (e : LogEntry) :
    logEntryAllowed q e = specLogAllowed q e := by
  simp only [logEntryAllowed, specLogAllowed]
  cases hk : q.lastKnownId with
  | none =>
    simp only [Bool.false_eq_true, if_false, Bool.true_and]
    exact severityChain e.type (q.normal.getD true) (q.info.getD true) (q.warning.getD true)
      (q.critical.getD true)
  | some k =>
    by_cases hek : e.id ≤ k
    · have h1 : decide (e.id ≤ k) = true := decide_eq_true hek
      have h2 : decide (k < e.id) = false := decide_eq_false (Int.not_lt.mpr hek)
      simp [h1, h2]
    · have h1 : decide (e.id ≤ k) = false := decide_eq_false hek
      have h2 : decide (k < e.id) = true := decide_eq_true (Int.not_le.mp hek)
      simp only [h1, h2, Bool.false_eq_true, if_false, Bool.true_and]
      exact severityChain e.type (q.normal.getD true) (q.info.getD true) (q.warning.getD true)
        (q.critical.getD true)

/-- C9: getMainLogs triggers the sync, leaves the resulting cache untouched by
the filtering, and returns exactly the cached entries passing the lastKnownId
cursor (strictly greater) and the per severity inclusion flags, each
defaulting to true; concretely, with normal and info disabled only the warning
and critical entries come back, in ascending id order. -/
theorem c9_getMainLogs_filter (q : GetLogOptions)
    (fetch : Nat → Option Int → List LogEntry) (cache : List LogEntry) :
    (getMainLogs q fetch cache).2 = (syncMainLogs fetch cache).1 ∧
    (getMainLogs q fetch cache).1
      = ((syncMainLogs fetch cache).1).filter (logEntryAllowed q) ∧
    (∀ e, e ∈ (getMainLogs q fetch cache).1 ↔
      e ∈ (syncMainLogs fetch cache).1 ∧ logEntryAllowed q e = true) ∧
    (∀ e, logEntryAllowed q e = specLogAllowed q e) ∧
    (getMainLogs ⟨some false, some false, some true, some true, none⟩
        exampleLogFetch []).1 = [⟨3, "w", 12, 4⟩, ⟨4, "c", 13, 8⟩] :=
  ⟨rfl, rfl, fun _ => List.mem_filter, fun e => logEntryAllowed_eq_spec q e, by decide⟩

theorem checkVersion_auth (st : ClientState) (r : Except String String)
    (st2 : ClientState) (b : Bool) (h : checkVersion st r = Except.ok (st2, b)) :
    st2.auth = st.auth := by
  unfold checkVersion at h
  split at h
  · simp at h
    rw [← h.1]
  · cases r with
    | error msg => simp at h
    | ok v =>
      simp at h
      rw [← h.1]

theorem checkVersion_ne_authFailed (st : ClientState) (r : Except String String) :
    checkVersion st r ≠ Except.error Err.authFailed := by
  unfold checkVersion
  split
  · simp
  · cases r <;> simp

theorem login_never_false (st : ClientState) (now : Int) (pd pn : String → Int)
    (fo : Except String (List String)) (vf : Except String String) (b : Bool)
    (st2 : ClientState) (h : login st now pd pn fo vf = Except.ok (b, st2)) :
    b = true ∧ st2.auth.isSome = true := by
  unfold login at h
  cases fo with
  | error msg => simp at h
  | ok setCookies =>
    split at h
    · simp at h
    · split at h
      · simp at h
      · split at h
        · simp at h
        · split at h
          · simp at h
          · next st3 b3 hcv =>
            simp at h
            refine ⟨h.1, ?_⟩
            rw [← h.2]
            rw [checkVersion_auth _ _ _ _ hcv]
            rfl

theorem login_ne_authFailed (st : ClientState) (now : Int) (pd pn : String → Int)
    (fo : Except String (List String)) (vf : Except String String) :
    login st now pd pn fo vf ≠ Except.error Err.authFailed := by
  unfold login
  cases fo with
  | error msg => simp
  | ok setCookies =>
    split
    · simp
    · split
      · simp
      · split
        · simp
        · split
          · next e hcv =>
            intro hcontra
            injection hcontra with he
            rw [he] at hcv
            exact checkVersion_ne_authFailed _ _ hcv
          · simp

/-- C10: login never resolves with false; it either fails with an error or
resolves with true and a cached session, and consequently the dispatcher
branch raising the auth failed error when login resolves unsuccessfully is
unreachable: a request never fails with that error. -/
theorem c10_login_never_false (st : ClientState) (now : Int) (pd pn : String → Int)
    (fo : Except String (List String)) (vf : Except String String)
    (path : String) (tr : Except String String) :
    (∀ b st2, login st now pd pn fo vf = Except.ok (b, st2) →
      b = true ∧ st2.auth.isSome = true) ∧
    (request path st now (login st now pd pn fo vf) tr).1
      ≠ Except.error Err.authFailed := by
  refine ⟨fun b st2 h => login_never_false st now pd pn fo vf b st2 h, ?_⟩
  by_cases hn : needsLogin st now = true
  · cases hl : login st now pd pn fo vf with
    | error e =>
      simp only [request, hn, if_true, hl]
      intro hcontra
      injection hcontra with he
      rw [he] at hl
      exact login_ne_authFailed st now pd pn fo vf hl
    | ok v =>
      obtain ⟨b, st2⟩ := v
      have hb := (login_never_false st now pd pn fo vf b st2 hl).1
      subst hb
      cases tr <;> simp [request, hn, hl]
  · have hn2 : needsLogin st now = false := by
      cases h : needsLogin st now
      · rfl
      · exact absurd h hn
    cases tr <;> simp [request, hn2]

/-- Witness for C10: a concrete successful login and a request built on it. -/
theorem c10_witness :
    (request "/x" ⟨none, none⟩ 0
        (login ⟨none, none⟩ 0 (fun _ => 0) (fun _ => 0) (Except.ok ["SID=abc"])
          (Except.ok "5.0.0"))
        (Except.ok "body")).1 ≠ Except.error Err.authFailed ∧
    (true = true ∧
      (⟨some ⟨"abc", 3600000⟩, some ⟨"5.0.0", true⟩⟩ : ClientState).auth.isSome = true) := by
  have h := c10_login_never_false ⟨none, none⟩ 0 (fun _ => 0) (fun _ => 0)
    (Except.ok ["SID=abc"]) (Except.ok "5.0.0") "/x" (Except.ok "body")
  exact ⟨h.2, h.1 true ⟨some ⟨"abc", 3600000⟩, some ⟨"5.0.0", true⟩⟩ (by decide)⟩

end Nqbtc
